import Mathlib

/-
Verification of the collision core and per-frame systems of the dodge game
(src/main.rs), embedded shallowly over exact rational arithmetic.  The
geometry functions `area`, `is_point_inside_triangle`,
`is_point_inside_rectangle`, `collide_with_rotation` and
`collide_with_rotation_multistep` are direct translations of the Rust
functions of the same names; rotations (`Quat::from_rotation_z` applied
through `mul_vec3`) are modelled by their action on the plane, a matrix
(c, s) with c = cos θ and s = sin θ, kept symbolic so that exact-arithmetic
statements can quantify over all rotations via the constraint c² + s² = 1.
-/

/-- A 2D vector with rational coordinates, modelling glam's `Vec2`. -/
@[ext]
structure Vec2 where
  x : ℚ
  y : ℚ
deriving DecidableEq, Repr

instance : Add Vec2 :=
  ⟨fun u v => ⟨u.x + v.x, u.y + v.y⟩⟩

instance : Sub Vec2 :=
  ⟨fun u v => ⟨u.x - v.x, u.y - v.y⟩⟩

instance : SMul ℚ Vec2 :=
  ⟨fun q v => ⟨q * v.x, q * v.y⟩⟩

@[simp]
theorem vec2_add_x (u v : Vec2) : (u + v).x = u.x + v.x := rfl

@[simp]
theorem vec2_add_y (u v : Vec2) : (u + v).y = u.y + v.y := rfl

@[simp]
theorem vec2_sub_x (u v : Vec2) : (u - v).x = u.x - v.x := rfl

@[simp]
theorem vec2_sub_y (u v : Vec2) : (u - v).y = u.y - v.y := rfl

@[simp]
theorem vec2_smul_x (q : ℚ) (v : Vec2) : (q • v).x = q * v.x := rfl

@[simp]
theorem vec2_smul_y (q : ℚ) (v : Vec2) : (q • v).y = q * v.y := rfl

/-- A planar rotation, the action of `Quat::from_rotation_z θ` on the xy
plane: `c` stands for cos θ and `s` for sin θ.  A genuine rotation
satisfies `c ^ 2 + s ^ 2 = 1`. -/
structure Rot where
  c : ℚ
  s : ℚ
deriving DecidableEq, Repr

/-- The action of a rotation on a vector, as `rotation.mul_vec3` acts on
`(x, y, 0)`. -/
def Rot.apply (r : Rot) (v : Vec2) : Vec2 :=
  ⟨r.c * v.x - r.s * v.y, r.s * v.x + r.c * v.y⟩

@[simp]
theorem rot_apply_x (r : Rot) (v : Vec2) : (r.apply v).x = r.c * v.x - r.s * v.y := rfl

@[simp]
theorem rot_apply_y (r : Rot) (v : Vec2) : (r.apply v).y = r.s * v.x + r.c * v.y := rfl

/-- Composition of rotations: `(Rot.comp r2 r1).apply v = r2.apply (r1.apply v)`. -/
def Rot.comp (r2 r1 : Rot) : Rot :=
  ⟨r2.c * r1.c - r2.s * r1.s, r2.s * r1.c + r2.c * r1.s⟩

/-- Absolute value on ℚ written out as `f32::abs` computes it. -/
def rabs (q : ℚ) : ℚ := if q < 0 then -q else q

theorem rabs_eq_abs (q : ℚ) : rabs q = |q| := by
  unfold rabs
  split_ifs with h
  · exact (abs_of_neg h).symm
  · exact (abs_of_nonneg (not_lt.mp h)).symm

/-- Translation of `fn area(p1, p2, p3) -> f32` of src/main.rs: the absolute value of the
shoelace half-sum. -/
def area (p1 p2 p3 : Vec2) : ℚ :=
  rabs ((p1.x * (p2.y - p3.y) + p2.x * (p3.y - p1.y) + p3.x * (p1.y - p2.y)) / 2)

/-- The signed variant of `area` (the same formula before the absolute
value), used to reason about the containment test. -/
def sarea (p1 p2 p3 : Vec2) : ℚ :=
  (p1.x * (p2.y - p3.y) + p2.x * (p3.y - p1.y) + p3.x * (p1.y - p2.y)) / 2

theorem area_eq_abs_sarea (p1 p2 p3 : Vec2) : area p1 p2 p3 = |sarea p1 p2 p3| :=
  rabs_eq_abs _

/-- Translation of `fn is_point_inside_triangle(t, p1, p2, p3) -> bool` of src/main.rs. -/
def is_point_inside_triangle (t p1 p2 p3 : Vec2) : Bool :=
  decide (area p1 p2 p3 ≥ area p1 p2 t + area p1 t p3 + area t p2 p3)

/-- Translation of `fn is_point_inside_rectangle(t, p1, p2, p3, p4) -> bool` of src/main.rs. -/
def is_point_inside_rectangle (t p1 p2 p3 p4 : Vec2) : Bool :=
  is_point_inside_triangle t p1 p2 p3 || is_point_inside_triangle t p2 p4 p3

/-- Translation of `fn collide_with_rotation(point, rectangle_position, rectangle_size,
rectangle_rotation) -> bool` of src/main.rs: rotate the four half-extent
corner offsets, translate by the centre, and test the two triangles. -/
def collide_with_rotation (point rectangle_position rectangle_size : Vec2)
    (rectangle_rotation : Rot) : Bool :=
  let point_1 : Vec2 := ⟨-rectangle_size.x / 2, rectangle_size.y / 2⟩
  let point_2 : Vec2 := ⟨-rectangle_size.x / 2, -rectangle_size.y / 2⟩
  let point_3 : Vec2 := ⟨rectangle_size.x / 2, rectangle_size.y / 2⟩
  let point_4 : Vec2 := ⟨rectangle_size.x / 2, -rectangle_size.y / 2⟩
  is_point_inside_rectangle point
    (rectangle_rotation.apply point_1 + rectangle_position)
    (rectangle_rotation.apply point_2 + rectangle_position)
    (rectangle_rotation.apply point_3 + rectangle_position)
    (rectangle_rotation.apply point_4 + rectangle_position)

/-- Translation of `fn collide_with_rotation_multistep(time, point, rectangle_position,
rectangle_size, rectangle_rotation, rectangle_velocity, steps) -> bool` of
src/main.rs: `time.delta_seconds()` is passed as the rational `dt`; the
loop `for i in 0..steps` with an early `return true` is `List.any` over
`List.range steps`, which short-circuits at the first hit. -/
def collide_with_rotation_multistep (dt : ℚ)
    (point rectangle_position rectangle_size : Vec2)
    (rectangle_rotation : Rot) (rectangle_velocity : Vec2) (steps : ℕ) : Bool :=
  (List.range steps).any fun i =>
    collide_with_rotation point
      (rectangle_position - dt • (((i : ℚ) / (steps : ℚ)) • rectangle_velocity))
      rectangle_size rectangle_rotation

/-- C3: `collide_with_rotation` at the identity rotation, centre (0,0) and
size (10,10) accepts (4,4), rejects (6,6) and accepts the boundary corner
(5,5). -/
theorem collide_with_rotation_axis_aligned_values :
    collide_with_rotation ⟨4, 4⟩ ⟨0, 0⟩ ⟨10, 10⟩ ⟨1, 0⟩ = true ∧
    collide_with_rotation ⟨6, 6⟩ ⟨0, 0⟩ ⟨10, 10⟩ ⟨1, 0⟩ = false ∧
    collide_with_rotation ⟨5, 5⟩ ⟨0, 0⟩ ⟨10, 10⟩ ⟨1, 0⟩ = true := by
  norm_num [collide_with_rotation, is_point_inside_rectangle,
    is_point_inside_triangle, area, rabs, Rot.apply, decide_eq_true_eq]

/-- C10: with `steps = 0` the sampling loop of
`collide_with_rotation_multistep` is empty, so the function evaluates no
collision test and returns `false`. -/
theorem collide_with_rotation_multistep_zero_steps (dt : ℚ)
    (point rectangle_position rectangle_size : Vec2)
    (rectangle_rotation : Rot) (rectangle_velocity : Vec2) :
    collide_with_rotation_multistep dt point rectangle_position rectangle_size
      rectangle_rotation rectangle_velocity 0 = false := by
  simp [collide_with_rotation_multistep]

/-- C4: with `steps = 1` the multistep resolver samples only `i = 0`, whose
displacement `(0/1) * velocity * dt` vanishes, so it coincides with the
single-step test at the end-of-frame position. -/
theorem collide_with_rotation_multistep_one_step (dt : ℚ)
    (point rectangle_position rectangle_size : Vec2)
    (rectangle_rotation : Rot) (rectangle_velocity : Vec2) :
    collide_with_rotation_multistep dt point rectangle_position rectangle_size
      rectangle_rotation rectangle_velocity 1 =
    collide_with_rotation point rectangle_position rectangle_size
      rectangle_rotation := by
  have h0 : List.range 1 = [0] := rfl
  have hpos : rectangle_position -
      dt • ((((0 : ℕ) : ℚ) / ((1 : ℕ) : ℚ)) • rectangle_velocity) =
      rectangle_position := by
    ext <;> simp
  simp only [collide_with_rotation_multistep, h0, List.any_cons,
    List.any_nil, Bool.or_false, hpos]

/-- C1: for `steps = N ≥ 1` the multistep resolver returns `true` exactly
when the single-step test accepts at least one of the `N` sampled positions
`rectangle_position - (i / N) * velocity * dt`, `i = 0, …, N - 1`. -/
theorem collide_with_rotation_multistep_iff_exists_sample (dt : ℚ)
    (point rectangle_position rectangle_size : Vec2)
    (rectangle_rotation : Rot) (rectangle_velocity : Vec2) (N : ℕ)
    (hN : 1 ≤ N) :
    collide_with_rotation_multistep dt point rectangle_position rectangle_size
      rectangle_rotation rectangle_velocity N = true ↔
    ∃ i : ℕ, i < N ∧
      collide_with_rotation point
        (rectangle_position - dt • (((i : ℚ) / (N : ℚ)) • rectangle_velocity))
        rectangle_size rectangle_rotation = true := by
  simp only [collide_with_rotation_multistep, List.any_eq_true, List.mem_range]

/-- Witness for C1 at concrete inputs: a stationary unit-speedless rectangle
of size 10×10 centred at the origin against the origin point, with one step. -/
theorem collide_with_rotation_multistep_iff_exists_sample_witness :
    collide_with_rotation_multistep 1 ⟨0, 0⟩ ⟨0, 0⟩ ⟨10, 10⟩ ⟨1, 0⟩ ⟨0, 0⟩ 1 = true ↔
    ∃ i : ℕ, i < 1 ∧
      collide_with_rotation ⟨0, 0⟩
        ((⟨0, 0⟩ : Vec2) - (1 : ℚ) • (((i : ℚ) / ((1 : ℕ) : ℚ)) • (⟨0, 0⟩ : Vec2)))
        ⟨10, 10⟩ ⟨1, 0⟩ = true :=
  collide_with_rotation_multistep_iff_exists_sample 1 ⟨0, 0⟩ ⟨0, 0⟩ ⟨10, 10⟩
    ⟨1, 0⟩ ⟨0, 0⟩ 1 (by decide)

/-- Membership of `t` in the closed triangle (the convex hull of `p1`,
`p2`, `p3`): `t` is a convex combination of the three vertices. -/
def inTriangle (t p1 p2 p3 : Vec2) : Prop :=
  ∃ a b c : ℚ, 0 ≤ a ∧ 0 ≤ b ∧ 0 ≤ c ∧ a + b + c = 1 ∧
    t.x = a * p1.x + b * p2.x + c * p3.x ∧
    t.y = a * p1.y + b * p2.y + c * p3.y

/-- The three signed sub-areas of the containment test sum to the signed
reference area. -/
theorem sarea_split (t p1 p2 p3 : Vec2) :
    sarea p1 p2 t + sarea p1 t p3 + sarea t p2 p3 = sarea p1 p2 p3 := by
  unfold sarea
  ring

/-- Cramer identity for the x coordinate: the signed sub-areas are the
barycentric coordinates of `t`, up to the factor `sarea p1 p2 p3`. -/
theorem sarea_bary_x (t p1 p2 p3 : Vec2) :
    sarea p1 p2 p3 * t.x =
      sarea t p2 p3 * p1.x + sarea p1 t p3 * p2.x + sarea p1 p2 t * p3.x := by
  unfold sarea
  ring

/-- Cramer identity for the y coordinate. -/
theorem sarea_bary_y (t p1 p2 p3 : Vec2) :
    sarea p1 p2 p3 * t.y =
      sarea t p2 p3 * p1.y + sarea p1 t p3 * p2.y + sarea p1 p2 t * p3.y := by
  unfold sarea
  ring

/-- For a convex combination the three sub-areas are the scaled barycentric
weights, so their absolute values sum exactly to the reference area. -/
theorem area_sum_of_inTriangle (t p1 p2 p3 : Vec2) (h : inTriangle t p1 p2 p3) :
    area p1 p2 t + area p1 t p3 + area t p2 p3 = area p1 p2 p3 := by
  obtain ⟨a, b, c, ha, hb, hc, habc, hx, hy⟩ := h
  have ha' : a = 1 - b - c := by linarith
  subst ha'
  have h1 : sarea p1 p2 t = c * sarea p1 p2 p3 := by
    unfold sarea
    rw [hx, hy]
    ring
  have h2 : sarea p1 t p3 = b * sarea p1 p2 p3 := by
    unfold sarea
    rw [hx, hy]
    ring
  have h3 : sarea t p2 p3 = (1 - b - c) * sarea p1 p2 p3 := by
    unfold sarea
    rw [hx, hy]
    ring
  rw [area_eq_abs_sarea, area_eq_abs_sarea, area_eq_abs_sarea,
    area_eq_abs_sarea, h1, h2, h3, abs_mul, abs_mul, abs_mul,
    abs_of_nonneg hc, abs_of_nonneg hb, abs_of_nonneg (by linarith : (0:ℚ) ≤ 1 - b - c)]
  ring

/-- When the reference triangle is nondegenerate and the test succeeds, the
three signed sub-areas share the sign of the reference area, and dividing
by it yields the convex-combination witness. -/
theorem inTriangle_of_test_true (t p1 p2 p3 : Vec2)
    (h0 : sarea p1 p2 p3 ≠ 0)
    (ht : is_point_inside_triangle t p1 p2 p3 = true) :
    inTriangle t p1 p2 p3 := by
  have hsum := sarea_split t p1 p2 p3
  have hle : area p1 p2 t + area p1 t p3 + area t p2 p3 ≤ area p1 p2 p3 := by
    have := of_decide_eq_true ht
    exact this
  rw [area_eq_abs_sarea, area_eq_abs_sarea, area_eq_abs_sarea,
    area_eq_abs_sarea] at hle
  set A := sarea p1 p2 t with hA
  set B := sarea p1 t p3 with hB
  set C := sarea t p2 p3 with hC
  set S := sarea p1 p2 p3 with hS
  have habs : |S| ≤ |A| + |B| + |C| := by
    calc |S| = |A + B + C| := by rw [hsum]
    _ ≤ |A + B| + |C| := abs_add _ _
    _ ≤ |A| + |B| + |C| := by linarith [abs_add A B]
  have heq : |A| + |B| + |C| = |S| := le_antisymm hle habs
  rcases lt_or_gt_of_ne h0 with hneg | hpos
  · -- S < 0: each signed sub-area is nonpositive
    have hSabs : |S| = -S := abs_of_neg hneg
    have hAle : A ≤ 0 := by
      have := neg_abs_le A
      have := neg_abs_le B
      have := neg_abs_le C
      have := le_abs_self A
      linarith
    have hBle : B ≤ 0 := by
      have := neg_abs_le A
      have := neg_abs_le B
      have := neg_abs_le C
      have := le_abs_self B
      linarith
    have hCle : C ≤ 0 := by
      have := neg_abs_le A
      have := neg_abs_le B
      have := neg_abs_le C
      have := le_abs_self C
      linarith
    refine ⟨C / S, B / S, A / S, ?_, ?_, ?_, ?_, ?_, ?_⟩
    · rw [show C / S = -C / -S by rw [neg_div_neg_eq]]
      exact div_nonneg (by linarith) (by linarith)
    · rw [show B / S = -B / -S by rw [neg_div_neg_eq]]
      exact div_nonneg (by linarith) (by linarith)
    · rw [show A / S = -A / -S by rw [neg_div_neg_eq]]
      exact div_nonneg (by linarith) (by linarith)
    · field_simp
      linarith
    · have := sarea_bary_x t p1 p2 p3
      rw [← hA, ← hB, ← hC, ← hS] at this
      field_simp
      linarith
    · have := sarea_bary_y t p1 p2 p3
      rw [← hA, ← hB, ← hC, ← hS] at this
      field_simp
      linarith
  · -- S > 0: each signed sub-area is nonnegative
    have hSabs : |S| = S := abs_of_pos hpos
    have hAge : 0 ≤ A := by
      have := neg_abs_le A
      have := le_abs_self B
      have := le_abs_self C
      have := le_abs_self A
      linarith
    have hBge : 0 ≤ B := by
      have := le_abs_self A
      have := neg_abs_le B
      have := le_abs_self C
      have := le_abs_self B
      linarith
    have hCge : 0 ≤ C := by
      have := le_abs_self A
      have := le_abs_self B
      have := neg_abs_le C
      have := le_abs_self C
      linarith
    refine ⟨C / S, B / S, A / S, div_nonneg hCge hpos.le, div_nonneg hBge hpos.le,
      div_nonneg hAge hpos.le, ?_, ?_, ?_⟩
    · field_simp
      linarith
    · have := sarea_bary_x t p1 p2 p3
      rw [← hA, ← hB, ← hC, ← hS] at this
      field_simp
      linarith
    · have := sarea_bary_y t p1 p2 p3
      rw [← hA, ← hB, ← hC, ← hS] at this
      field_simp
      linarith

/-- C2 counterexample: for the fully degenerate triangle whose three
vertices all sit at the origin, the point (1, 0) is strictly outside (it is
no convex combination of the vertices), yet every area in the comparison is
0 and the test accepts it. -/
theorem is_point_inside_triangle_degenerate_cex :
    is_point_inside_triangle ⟨1, 0⟩ ⟨0, 0⟩ ⟨0, 0⟩ ⟨0, 0⟩ = true ∧
    ¬ inTriangle ⟨1, 0⟩ ⟨0, 0⟩ ⟨0, 0⟩ ⟨0, 0⟩ := by
  constructor
  · norm_num [is_point_inside_triangle, area, rabs]
  · rintro ⟨a, b, c, -, -, -, -, hx, -⟩
    norm_num at hx

/-- C2 (amended): the test accepts exactly when the three sub-areas sum to
at most the reference area; every point of the closed triangle makes the
sums equal, hence is accepted; and when the triangle is nondegenerate
(nonzero signed area) every point strictly outside the closed triangle
makes the sum strictly larger, hence is rejected.  (For degenerate
triangles the rejection half fails, see the counterexample.) -/
theorem is_point_inside_triangle_characterization (t p1 p2 p3 : Vec2) :
    (is_point_inside_triangle t p1 p2 p3 = true ↔
      area p1 p2 p3 ≥ area p1 p2 t + area p1 t p3 + area t p2 p3)
    ∧ (inTriangle t p1 p2 p3 →
        area p1 p2 t + area p1 t p3 + area t p2 p3 = area p1 p2 p3 ∧
        is_point_inside_triangle t p1 p2 p3 = true)
    ∧ (sarea p1 p2 p3 ≠ 0 → ¬ inTriangle t p1 p2 p3 →
        area p1 p2 p3 < area p1 p2 t + area p1 t p3 + area t p2 p3 ∧
        is_point_inside_triangle t p1 p2 p3 = false) := by
  have hdef : is_point_inside_triangle t p1 p2 p3 = true ↔
      area p1 p2 p3 ≥ area p1 p2 t + area p1 t p3 + area t p2 p3 := by
    simp only [is_point_inside_triangle, decide_eq_true_eq]
  refine ⟨hdef, ?_, ?_⟩
  · intro hin
    have hsum := area_sum_of_inTriangle t p1 p2 p3 hin
    exact ⟨hsum, hdef.mpr (le_of_eq hsum)⟩
  · intro h0 hout
    have hfalse : is_point_inside_triangle t p1 p2 p3 = false := by
      cases hb : is_point_inside_triangle t p1 p2 p3
      · rfl
      · exact absurd (inTriangle_of_test_true t p1 p2 p3 h0 hb) hout
    refine ⟨?_, hfalse⟩
    by_contra hle
    push_neg at hle
    have htrue : is_point_inside_triangle t p1 p2 p3 = true := hdef.mpr hle
    rw [htrue] at hfalse
    simp at hfalse

/-- C5 counterexample: a rectangle of size 1×1 ending the frame at (10, 0)
after moving with velocity (20, 0) for dt = 1 covers the origin exactly at
the backward fraction 1/2, which is sampled with 2 steps but not with 3
steps, so raising the step count from 2 to 3 turns the detection into a
miss. -/
theorem collide_with_rotation_multistep_not_monotonic :
    collide_with_rotation_multistep 1 ⟨0, 0⟩ ⟨10, 0⟩ ⟨1, 1⟩ ⟨1, 0⟩ ⟨20, 0⟩ 2 = true ∧
    collide_with_rotation_multistep 1 ⟨0, 0⟩ ⟨10, 0⟩ ⟨1, 1⟩ ⟨1, 0⟩ ⟨20, 0⟩ 3 = false := by
  constructor <;>
    norm_num [collide_with_rotation_multistep, List.range_succ,
      collide_with_rotation, is_point_inside_rectangle,
      is_point_inside_triangle, area, rabs, Rot.apply, decide_eq_true_eq]

/-- C5 (amended): the multistep resolver is monotonic along divisibility of
the step counts: when `N` divides `M` (and `M ≥ 1`), every position sampled
with `N` steps is also sampled with `M` steps, so a detection with `N`
steps is preserved with `M` steps.  (For general `N ≤ M` the sample sets
are not nested and monotonicity fails, see the counterexample.) -/
theorem collide_with_rotation_multistep_mono_of_dvd (dt : ℚ)
    (point rectangle_position rectangle_size : Vec2)
    (rectangle_rotation : Rot) (rectangle_velocity : Vec2) (N M : ℕ)
    (hM : 0 < M) (hdvd : N ∣ M)
    (h : collide_with_rotation_multistep dt point rectangle_position
      rectangle_size rectangle_rotation rectangle_velocity N = true) :
    collide_with_rotation_multistep dt point rectangle_position
      rectangle_size rectangle_rotation rectangle_velocity M = true := by
  obtain ⟨k, rfl⟩ := hdvd
  simp only [collide_with_rotation_multistep, List.any_eq_true,
    List.mem_range] at h ⊢
  obtain ⟨i, hi, hc⟩ := h
  have hk : 0 < k := Nat.pos_of_ne_zero fun hk0 => by
    rw [hk0, Nat.mul_zero] at hM
    exact Nat.lt_irrefl 0 hM
  refine ⟨i * k, (Nat.mul_lt_mul_right hk).mpr hi, ?_⟩
  have hcast : ((i * k : ℕ) : ℚ) / ((N * k : ℕ) : ℚ) = (i : ℚ) / (N : ℚ) := by
    push_cast
    rw [mul_div_mul_right]
    exact_mod_cast hk.ne'
  rw [hcast]
  exact hc

/-- Witness for C5's amended theorem: one step divides two, and the hit
found with one step is preserved with two. -/
theorem collide_with_rotation_multistep_mono_of_dvd_witness :
    collide_with_rotation_multistep 1 ⟨0, 0⟩ ⟨0, 0⟩ ⟨10, 10⟩ ⟨1, 0⟩ ⟨0, 0⟩ 2 = true :=
  collide_with_rotation_multistep_mono_of_dvd 1 ⟨0, 0⟩ ⟨0, 0⟩ ⟨10, 10⟩ ⟨1, 0⟩
    ⟨0, 0⟩ 1 2 (by decide) ⟨2, rfl⟩
    (by norm_num [collide_with_rotation_multistep, List.range_succ,
      collide_with_rotation, is_point_inside_rectangle,
      is_point_inside_triangle, area, rabs, Rot.apply, decide_eq_true_eq])

/-- Rotation of a point by `r` about the centre `ctr`. -/
def rotAbout (r : Rot) (ctr v : Vec2) : Vec2 :=
  r.apply (v - ctr) + ctr

/-- A unit rotation about any centre preserves the signed area. -/
theorem sarea_rotAbout (r : Rot) (hr : r.c ^ 2 + r.s ^ 2 = 1) (ctr a b c : Vec2) :
    sarea (rotAbout r ctr a) (rotAbout r ctr b) (rotAbout r ctr c) =
      sarea a b c := by
  have key : sarea (rotAbout r ctr a) (rotAbout r ctr b) (rotAbout r ctr c) =
      (r.c ^ 2 + r.s ^ 2) * sarea a b c := by
    simp only [sarea, rotAbout, rot_apply_x, rot_apply_y, vec2_add_x,
      vec2_add_y, vec2_sub_x, vec2_sub_y]
    ring
  rw [key, hr, one_mul]

/-- A unit rotation about any centre preserves the absolute area. -/
theorem area_rotAbout (r : Rot) (hr : r.c ^ 2 + r.s ^ 2 = 1) (ctr a b c : Vec2) :
    area (rotAbout r ctr a) (rotAbout r ctr b) (rotAbout r ctr c) =
      area a b c := by
  rw [area_eq_abs_sarea, area_eq_abs_sarea, sarea_rotAbout r hr]

/-- The triangle test is invariant under rotating all four points by a unit
rotation about a common centre. -/
theorem is_point_inside_triangle_rotAbout (r : Rot) (hr : r.c ^ 2 + r.s ^ 2 = 1)
    (ctr t p1 p2 p3 : Vec2) :
    is_point_inside_triangle (rotAbout r ctr t) (rotAbout r ctr p1)
      (rotAbout r ctr p2) (rotAbout r ctr p3) =
      is_point_inside_triangle t p1 p2 p3 := by
  unfold is_point_inside_triangle
  rw [area_rotAbout r hr, area_rotAbout r hr, area_rotAbout r hr,
    area_rotAbout r hr]

/-- The rectangle test is invariant under rotating all five points by a
unit rotation about a common centre. -/
theorem is_point_inside_rectangle_rotAbout (r : Rot) (hr : r.c ^ 2 + r.s ^ 2 = 1)
    (ctr t p1 p2 p3 p4 : Vec2) :
    is_point_inside_rectangle (rotAbout r ctr t) (rotAbout r ctr p1)
      (rotAbout r ctr p2) (rotAbout r ctr p3) (rotAbout r ctr p4) =
      is_point_inside_rectangle t p1 p2 p3 p4 := by
  unfold is_point_inside_rectangle
  rw [is_point_inside_triangle_rotAbout r hr,
    is_point_inside_triangle_rotAbout r hr]

/-- Composing the rectangle's rotation with `r` places each corner at the
`r`-rotation about the centre of the original corner. -/
theorem comp_corner_eq_rotAbout (r rot : Rot) (pos off : Vec2) :
    (Rot.comp r rot).apply off + pos = rotAbout r pos (rot.apply off + pos) := by
  unfold rotAbout Rot.comp Rot.apply
  ext <;> simp <;> ring

/-- C6: `collide_with_rotation` is rotation-equivariant: rotating the test
point about the rectangle's centre by a unit rotation `r` and composing the
rectangle's rotation with the same `r` leaves the result unchanged. -/
theorem collide_with_rotation_equivariant
    (point rectangle_position rectangle_size : Vec2)
    (rectangle_rotation r : Rot) (hr : r.c ^ 2 + r.s ^ 2 = 1) :
    collide_with_rotation (rotAbout r rectangle_position point)
      rectangle_position rectangle_size
      (Rot.comp r rectangle_rotation) =
    collide_with_rotation point rectangle_position rectangle_size
      rectangle_rotation := by
  simp only [collide_with_rotation]
  rw [comp_corner_eq_rotAbout, comp_corner_eq_rotAbout,
    comp_corner_eq_rotAbout, comp_corner_eq_rotAbout,
    is_point_inside_rectangle_rotAbout r hr]

/-- Witness for C6 at the quarter-turn rotation (c, s) = (0, 1), applied to
the axis-aligned 10×10 rectangle at the origin and the point (4, 4). -/
theorem collide_with_rotation_equivariant_witness :
    collide_with_rotation (rotAbout ⟨0, 1⟩ ⟨0, 0⟩ ⟨4, 4⟩) ⟨0, 0⟩ ⟨10, 10⟩
      (Rot.comp ⟨0, 1⟩ ⟨1, 0⟩) =
    collide_with_rotation ⟨4, 4⟩ ⟨0, 0⟩ ⟨10, 10⟩ ⟨1, 0⟩ :=
  collide_with_rotation_equivariant ⟨4, 4⟩ ⟨0, 0⟩ ⟨10, 10⟩ ⟨1, 0⟩ ⟨0, 1⟩
    (by norm_num)

/-- A projectile: its current position (`Transform::translation`) and its
constant `Velocity` component. -/
structure Bullet where
  position : Vec2
  velocity : Vec2
deriving DecidableEq, Repr

/-- One Euler step of `bullet_movements` for a single bullet:
`translation.x += velocity.x * dt; translation.y += velocity.y * dt`. -/
def bullet_step (dt : ℚ) (b : Bullet) : Bullet :=
  ⟨⟨b.position.x + b.velocity.x * dt, b.position.y + b.velocity.y * dt⟩,
    b.velocity⟩

/-- The arena bound `const LIMIT: f32 = 1000.` of `bullet_movements`. -/
def LIMIT : ℚ := 1000

/-- Translation of `fn bullet_movements` of src/main.rs, acting on the list of live
bullets: each bullet is advanced by `velocity * dt`, then despawned when
its updated x or y coordinate lies strictly outside `[-LIMIT, LIMIT]`. -/
def bullet_movements : ℚ → List Bullet → List Bullet
  | _, [] => []
  | dt, b :: rest =>
    let b1 := bullet_step dt b
    if b1.position.x > LIMIT ∨ b1.position.x < -LIMIT ∨
        b1.position.y > LIMIT ∨ b1.position.y < -LIMIT then
      bullet_movements dt rest
    else
      b1 :: bullet_movements dt rest

/-- C7: the integrator advances every bullet by `velocity * dt` (leaving
the velocity unchanged) and keeps exactly the bullets whose updated
coordinates stay within the ±1000 arena bound; in particular the bullet at
(999, 0) with velocity (100, 0) and dt = 1/10 moves to (1009, 0) and is
removed. -/
theorem bullet_movements_spec :
    (∀ (dt : ℚ) (bs : List Bullet),
      bullet_movements dt bs =
        (bs.map (bullet_step dt)).filter fun b =>
          decide (-LIMIT ≤ b.position.x ∧ b.position.x ≤ LIMIT ∧
            -LIMIT ≤ b.position.y ∧ b.position.y ≤ LIMIT))
    ∧ (∀ (dt : ℚ) (b : Bullet), (bullet_step dt b).velocity = b.velocity)
    ∧ bullet_step (1/10) ⟨⟨999, 0⟩, ⟨100, 0⟩⟩ = ⟨⟨1009, 0⟩, ⟨100, 0⟩⟩
    ∧ bullet_movements (1/10) [⟨⟨999, 0⟩, ⟨100, 0⟩⟩] = [] := by
  refine ⟨?_, fun dt b => rfl, ?_, ?_⟩
  · intro dt bs
    induction bs with
    | nil => rfl
    | cons b rest ih =>
      simp only [bullet_movements, List.map_cons, List.filter_cons]
      by_cases h : (bullet_step dt b).position.x > LIMIT ∨
          (bullet_step dt b).position.x < -LIMIT ∨
          (bullet_step dt b).position.y > LIMIT ∨
          (bullet_step dt b).position.y < -LIMIT
      · rw [if_pos h, ih]
        have hdec : decide (-LIMIT ≤ (bullet_step dt b).position.x ∧
            (bullet_step dt b).position.x ≤ LIMIT ∧
            -LIMIT ≤ (bullet_step dt b).position.y ∧
            (bullet_step dt b).position.y ≤ LIMIT) = false := by
          simp only [decide_eq_false_iff_not]
          intro hin
          rcases h with h | h | h | h <;> linarith [hin.1, hin.2.1, hin.2.2.1, hin.2.2.2]
        rw [hdec]
        simp
      · rw [if_neg h, ih]
        push_neg at h
        have hdec : decide (-LIMIT ≤ (bullet_step dt b).position.x ∧
            (bullet_step dt b).position.x ≤ LIMIT ∧
            -LIMIT ≤ (bullet_step dt b).position.y ∧
            (bullet_step dt b).position.y ≤ LIMIT) = true := by
          simp only [decide_eq_true_eq]
          exact ⟨h.2.1, h.1, h.2.2.2, h.2.2.1⟩
        rw [hdec]
        simp
  · norm_num [bullet_step]
  · norm_num [bullet_movements, bullet_step, LIMIT]

/-- The score/spawn timer of the `Game` resource, `Timer::from_seconds(0.2,
true)`: elapsed time, duration and the repeating flag. -/
structure Timer where
  elapsed : ℚ
  duration : ℚ
  repeating : Bool
deriving DecidableEq, Repr

/-- An entity of the world as the `clean` system sees it: an identifier and
whether it carries the `Bullet` or the `StartText` marker component. -/
structure Entity where
  eid : ℕ
  isBullet : Bool
  isStartText : Bool
deriving DecidableEq, Repr

/-- The round state touched by the systems: the live entities, the `Game`
resource's score, timer and player reference. -/
structure World where
  entities : List Entity
  score : ℕ
  timer : Timer
  player : Option ℕ

/-- Translation of `fn clean` of src/main.rs, run on entering `AppState::Playing`: despawn
every entity matched by the `Bullet` query and by the `StartText` query,
and set `game.score = 0`.  The timer and player fields of the resource are
not touched. -/
def clean (w : World) : World :=
  { w with
    entities := w.entities.filter fun e => !e.isBullet && !e.isStartText,
    score := 0 }

/-- C9: on entering Playing, `clean` zeroes the score, keeps exactly the
entities that are neither bullets nor start-screen text (in order), and
leaves the spawn timer and the player reference unchanged. -/
theorem clean_spec (w : World) :
    (clean w).score = 0
    ∧ (clean w).timer = w.timer
    ∧ (clean w).player = w.player
    ∧ ∀ e : Entity, e ∈ (clean w).entities ↔
        e ∈ w.entities ∧ e.isBullet = false ∧ e.isStartText = false := by
  refine ⟨rfl, rfl, rfl, fun e => ?_⟩
  simp [clean, List.mem_filter, Bool.and_eq_true, Bool.not_eq_true']

/-- An element `a + b·√2` of ℚ[√2], the field in which every position the
player controller can produce lives exactly: axis-aligned moves add
rationals and diagonal moves add rational multiples of √2 (from
normalizing (±1, ±1)). -/
@[ext]
structure Q2 where
  a : ℚ
  b : ℚ
deriving DecidableEq, Repr

instance : Add Q2 :=
  ⟨fun u v => ⟨u.a + v.a, u.b + v.b⟩⟩

instance : Sub Q2 :=
  ⟨fun u v => ⟨u.a - v.a, u.b - v.b⟩⟩

instance : Mul Q2 :=
  ⟨fun u v => ⟨u.a * v.a + 2 * u.b * v.b, u.a * v.b + u.b * v.a⟩⟩

@[simp]
theorem q2_add_a (u v : Q2) : (u + v).a = u.a + v.a := rfl

@[simp]
theorem q2_add_b (u v : Q2) : (u + v).b = u.b + v.b := rfl

@[simp]
theorem q2_sub_a (u v : Q2) : (u - v).a = u.a - v.a := rfl

@[simp]
theorem q2_sub_b (u v : Q2) : (u - v).b = u.b - v.b := rfl

@[simp]
theorem q2_mul_a (u v : Q2) : (u * v).a = u.a * v.a + 2 * u.b * v.b := rfl

@[simp]
theorem q2_mul_b (u v : Q2) : (u * v).b = u.a * v.b + u.b * v.a := rfl

/-- Embedding of a rational as an element of ℚ[√2]. -/
def Q2.ofRat (q : ℚ) : Q2 := ⟨q, 0⟩

/-- The real number an element of ℚ[√2] denotes. -/
noncomputable def Q2.toReal (v : Q2) : ℝ :=
  (v.a : ℝ) + (v.b : ℝ) * Real.sqrt 2

theorem q2_toReal_sub (u v : Q2) : (u - v).toReal = u.toReal - v.toReal := by
  unfold Q2.toReal
  push_cast [q2_sub_a, q2_sub_b]
  ring

/-- Decidable sign test on ℚ[√2]: `a + b·√2 ≥ 0`, decided by comparing
squares in the mixed-sign cases. -/
def Q2.nonneg (v : Q2) : Bool :=
  if 0 ≤ v.a then
    if 0 ≤ v.b then true else decide (2 * v.b ^ 2 ≤ v.a ^ 2)
  else
    if 0 ≤ v.b then decide (v.a ^ 2 ≤ 2 * v.b ^ 2) else false

/-- The sign test agrees with the real order. -/
theorem q2_nonneg_iff (v : Q2) : Q2.nonneg v = true ↔ 0 ≤ v.toReal := by
  have s2 : Real.sqrt 2 ^ 2 = 2 := Real.sq_sqrt (by norm_num)
  have s2pos : (0 : ℝ) < Real.sqrt 2 := Real.sqrt_pos.mpr (by norm_num)
  unfold Q2.nonneg Q2.toReal
  split_ifs with h1 h2 h3
  · have ha : (0 : ℝ) ≤ (v.a : ℝ) := by exact_mod_cast h1
    have hb : (0 : ℝ) ≤ (v.b : ℝ) := by exact_mod_cast h2
    exact ⟨fun _ => by nlinarith [mul_nonneg hb s2pos.le], fun _ => rfl⟩
  · rw [decide_eq_true_eq]
    have ha : (0 : ℝ) ≤ (v.a : ℝ) := by exact_mod_cast h1
    have hb : (v.b : ℝ) < 0 := by exact_mod_cast not_le.mp h2
    constructor
    · intro hq
      have hsq : 2 * (v.b : ℝ) ^ 2 ≤ (v.a : ℝ) ^ 2 := by exact_mod_cast hq
      by_contra hx
      push_neg at hx
      have hy : (0 : ℝ) < (v.a : ℝ) - v.b * Real.sqrt 2 := by
        nlinarith [mul_pos (neg_pos.mpr hb) s2pos]
      nlinarith [mul_pos (show (0 : ℝ) < -((v.a : ℝ) + v.b * Real.sqrt 2) by
        linarith) hy, s2]
    · intro hq
      have hy : (0 : ℝ) ≤ (v.a : ℝ) - v.b * Real.sqrt 2 := by
        nlinarith [mul_pos (neg_pos.mpr hb) s2pos]
      have hprod := mul_nonneg hq hy
      have hfin : 2 * (v.b : ℝ) ^ 2 ≤ (v.a : ℝ) ^ 2 := by nlinarith [s2]
      exact_mod_cast hfin
  · rw [decide_eq_true_eq]
    have ha : (v.a : ℝ) < 0 := by exact_mod_cast not_le.mp h1
    have hb : (0 : ℝ) ≤ (v.b : ℝ) := by exact_mod_cast h3
    constructor
    · intro hq
      have hsq : (v.a : ℝ) ^ 2 ≤ 2 * (v.b : ℝ) ^ 2 := by exact_mod_cast hq
      by_contra hx
      push_neg at hx
      have hy : (0 : ℝ) < -(v.a : ℝ) + v.b * Real.sqrt 2 := by
        linarith [mul_nonneg hb s2pos.le]
      nlinarith [mul_pos (show (0 : ℝ) < -((v.a : ℝ) + v.b * Real.sqrt 2) by
        linarith) hy, s2]
    · intro hq
      have hy : (0 : ℝ) < -(v.a : ℝ) + v.b * Real.sqrt 2 := by
        linarith [mul_nonneg hb s2pos.le]
      have hprod := mul_nonneg hq hy.le
      have hfin : (v.a : ℝ) ^ 2 ≤ 2 * (v.b : ℝ) ^ 2 := by nlinarith [s2]
      exact_mod_cast hfin
  · simp only [false_iff, not_le]
    have ha : (v.a : ℝ) < 0 := by exact_mod_cast not_le.mp h1
    have hb : (v.b : ℝ) < 0 := by exact_mod_cast not_le.mp h3
    nlinarith [mul_pos (neg_pos.mpr hb) s2pos]

/-- Decidable order on ℚ[√2]. -/
def Q2.le (u v : Q2) : Bool := Q2.nonneg (v - u)

/-- The decidable order agrees with the real order. -/
theorem q2_le_iff (u v : Q2) : Q2.le u v = true ↔ u.toReal ≤ v.toReal := by
  unfold Q2.le
  rw [q2_nonneg_iff, q2_toReal_sub]
  exact sub_nonneg

/-- The clamp of `f32::clamp` on ℚ[√2]: `x.clamp(lo, hi)`. -/
def Q2.clamp (x lo hi : Q2) : Q2 :=
  if Q2.le lo x then (if Q2.le x hi then x else hi) else lo

/-- The clamped value lies between the bounds (in the real order). -/
theorem q2_clamp_bounds (x lo hi : Q2) (h : lo.toReal ≤ hi.toReal) :
    lo.toReal ≤ (Q2.clamp x lo hi).toReal ∧
      (Q2.clamp x lo hi).toReal ≤ hi.toReal := by
  unfold Q2.clamp
  split_ifs with h1 h2
  · exact ⟨(q2_le_iff lo x).mp h1, (q2_le_iff x hi).mp h2⟩
  · exact ⟨h, le_refl _⟩
  · exact ⟨le_refl _, h⟩

/-- The direction accumulated by `player_movements` from the four keys
(E: x += 1, U: x -= 1, P: y += 1, I: y -= 1). -/
def playerDirection (ke ku kp ki : Bool) : ℚ × ℚ :=
  ((if ke then (1 : ℚ) else 0) - (if ku then (1 : ℚ) else 0),
   (if kp then (1 : ℚ) else 0) - (if ki then (1 : ℚ) else 0))

/-- Exact value of `direction.normalize() * PLAYER_SPEED * dt`
(PLAYER_SPEED = 250) for the directions `playerDirection` produces, whose
components lie in {-1, 0, 1}: an axis-aligned direction already has length
1; a diagonal one has length √2, and dividing by √2 turns each unit
component into √2/2, i.e. the element `⟨0, d/2⟩` of ℚ[√2] per component,
scaled by 250·dt. -/
def playerStep (d : ℚ × ℚ) (dt : ℚ) : Q2 × Q2 :=
  if d.1 = 0 ∨ d.2 = 0 then
    (⟨d.1 * 250 * dt, 0⟩, ⟨d.2 * 250 * dt, 0⟩)
  else
    (⟨0, d.1 * 125 * dt⟩, ⟨0, d.2 * 125 * dt⟩)

/-- The player position after the movement branch of `player_movements`
(before clamping): unchanged when the direction is zero, else translated by
the normalized direction times 250·dt. -/
def playerMoved (ke ku kp ki : Bool) (dt : ℚ) (pos : Q2 × Q2) : Q2 × Q2 :=
  let d := playerDirection ke ku kp ki
  if d = (0, 0) then pos
  else (pos.1 + (playerStep d dt).1, pos.2 + (playerStep d dt).2)

/-- Translation of `fn player_movements` of src/main.rs: accumulate the direction from the
four keys, move by the normalized direction scaled by 250·dt when nonzero,
then clamp both coordinates to [-500, 500]. -/
def player_movements (ke ku kp ki : Bool) (dt : ℚ) (pos : Q2 × Q2) : Q2 × Q2 :=
  (Q2.clamp (playerMoved ke ku kp ki dt pos).1 ⟨-500, 0⟩ ⟨500, 0⟩,
   Q2.clamp (playerMoved ke ku kp ki dt pos).2 ⟨-500, 0⟩ ⟨500, 0⟩)

set_option maxHeartbeats 1600000 in
/-- C8: for every key combination, dt and starting position, the movement
step is parallel to the accumulated direction, has squared length exactly
(250·dt)² whenever the direction is nonzero (so diagonal speed equals
axis-aligned speed), points the same way as the direction (for dt ≥ 0 its
dot product with the direction is nonnegative, which together with
parallelism and the length fixes the step to the normalized direction
scaled by 250·dt), and after clamping both player coordinates lie in
[-500, 500]. -/
theorem player_movements_spec (ke ku kp ki : Bool) (dt : ℚ) (pos : Q2 × Q2) :
    (((playerMoved ke ku kp ki dt pos).1 - pos.1) *
        Q2.ofRat (playerDirection ke ku kp ki).2 =
      ((playerMoved ke ku kp ki dt pos).2 - pos.2) *
        Q2.ofRat (playerDirection ke ku kp ki).1)
    ∧ (playerDirection ke ku kp ki ≠ (0, 0) →
        ((playerMoved ke ku kp ki dt pos).1 - pos.1) *
            ((playerMoved ke ku kp ki dt pos).1 - pos.1) +
          ((playerMoved ke ku kp ki dt pos).2 - pos.2) *
            ((playerMoved ke ku kp ki dt pos).2 - pos.2) =
          Q2.ofRat ((250 * dt) ^ 2))
    ∧ (0 ≤ dt →
        0 ≤ (((playerMoved ke ku kp ki dt pos).1 - pos.1) *
              Q2.ofRat (playerDirection ke ku kp ki).1 +
            ((playerMoved ke ku kp ki dt pos).2 - pos.2) *
              Q2.ofRat (playerDirection ke ku kp ki).2).toReal)
    ∧ (-500 ≤ (player_movements ke ku kp ki dt pos).1.toReal ∧
        (player_movements ke ku kp ki dt pos).1.toReal ≤ 500)
    ∧ (-500 ≤ (player_movements ke ku kp ki dt pos).2.toReal ∧
        (player_movements ke ku kp ki dt pos).2.toReal ≤ 500) := by
  have hlo : (Q2.mk (-500) 0).toReal = -500 := by
    unfold Q2.toReal
    push_cast
    ring
  have hhi : (Q2.mk 500 0).toReal = 500 := by
    unfold Q2.toReal
    push_cast
    ring
  have hlh : (Q2.mk (-500) 0).toReal ≤ (Q2.mk 500 0).toReal := by
    rw [hlo, hhi]
    norm_num
  have hb1 := q2_clamp_bounds (playerMoved ke ku kp ki dt pos).1 ⟨-500, 0⟩ ⟨500, 0⟩ hlh
  have hb2 := q2_clamp_bounds (playerMoved ke ku kp ki dt pos).2 ⟨-500, 0⟩ ⟨500, 0⟩ hlh
  rw [hlo, hhi] at hb1 hb2
  refine ⟨?_, ?_, ?_, ?_, ?_⟩
  · cases ke <;> cases ku <;> cases kp <;> cases ki <;>
      simp only [playerDirection, playerMoved, playerStep, Q2.ofRat,
        if_true, if_false, Bool.false_eq_true] <;>
      norm_num <;>
      (ext <;> simp <;> ring)
  · intro hd
    cases ke <;> cases ku <;> cases kp <;> cases ki <;>
      first
      | (exfalso; apply hd; norm_num [playerDirection]; done)
      | (norm_num [playerMoved, playerStep, playerDirection, Q2.ofRat];
          ext <;> simp <;> ring)
  · intro hdt
    have hdt' : (0 : ℝ) ≤ (dt : ℝ) := by exact_mod_cast hdt
    have hs : (0 : ℝ) ≤ Real.sqrt 2 := Real.sqrt_nonneg 2
    cases ke <;> cases ku <;> cases kp <;> cases ki <;>
      (norm_num [playerMoved, playerStep, playerDirection, Q2.ofRat, Q2.toReal];
        first
        | done
        | nlinarith [mul_nonneg hdt' hs])
  · exact hb1
  · exact hb2
